import Mathlib

/-!
# Verification of the linux-zones tiling engine

A shallow embedding of the core of the `linux-zones` repository
(`src/app/base.py`, `src/app/zones.py`, `src/app/editor.py`,
`src/app/widgets.py`) over exact rational arithmetic, together with
theorems checking the natural-language specification against it.

Coordinates are modelled as `ℚ` (Python ints and the exact values flowing
through the geometry all embed into `ℚ`); Python's `round` (banker's
rounding, round-half-to-even) is modelled exactly; fallible operations
(`assert`s and raised exceptions) are modelled with `Except`/`Option`.
-/

namespace LinuxZones

/-- `base.Axis`: the two primary axes (`x = 0`, `y = 1`). -/
inductive Axis where
  | x
  | y
  deriving DecidableEq, Repr

/-- `base.Side`: the four sides of a rectangle. -/
inductive Side where
  | TOP
  | BOTTOM
  | LEFT
  | RIGHT
  deriving DecidableEq, Repr

/-- A pixel rectangle (`Gdk.Rectangle` / the x, y, width, height quadruple
of a `Schema`), with exact rational components. -/
structure Rect where
  x : ℚ
  y : ℚ
  width : ℚ
  height : ℚ
  deriving DecidableEq, Repr

/-- Python 3 `round` on an exact rational: round half to even. -/
def pyRound (q : ℚ) : ℤ :=
  if q - ⌊q⌋ < 1/2 then ⌊q⌋
  else if 1/2 < q - ⌊q⌋ then ⌊q⌋ + 1
  else if Even ⌊q⌋ then ⌊q⌋ else ⌊q⌋ + 1

theorem pyRound_int (n : ℤ) : pyRound n = n := by
  simp [pyRound]

/-- `|pyRound q - q| ≤ 1/2`: Python rounding moves a value by at most a half. -/
theorem abs_pyRound_sub_le (q : ℚ) : |(pyRound q : ℚ) - q| ≤ 1/2 := by
  have hfl : (⌊q⌋ : ℚ) ≤ q := Int.floor_le q
  have hfu : q < (⌊q⌋ : ℚ) + 1 := Int.lt_floor_add_one q
  unfold pyRound
  split
  · rename_i h
    rw [abs_sub_le_iff]
    constructor <;> [linarith; linarith]
  · split
    · rename_i h1 h2
      push_neg at h1
      push_cast
      rw [abs_sub_le_iff]
      constructor <;> [push_cast; push_cast] <;> linarith
    · split <;>
      · rename_i h1 h2 _
        push_neg at h1 h2
        have : q - ⌊q⌋ = 1/2 := le_antisymm h2 h1
        push_cast
        rw [abs_sub_le_iff]
        constructor <;> linarith

/-- `pyRound` is monotone with respect to integer bounds from above:
if `q ≤ n` for an integer `n` then `pyRound q ≤ n`. -/
theorem pyRound_le_of_le {q : ℚ} {n : ℤ} (h : q ≤ n) : pyRound q ≤ n := by
  have hb := abs_pyRound_sub_le q
  rw [abs_sub_le_iff] at hb
  have : (pyRound q : ℚ) ≤ (n : ℚ) + 1/2 := by linarith [hb.1]
  have h2 : (pyRound q : ℚ) < (n : ℚ) + 1 := by linarith
  exact_mod_cast Int.lt_add_one_iff.mp (by exact_mod_cast h2)

/-- If `(n : ℚ) ≤ q` for an integer `n` then `n ≤ pyRound q`. -/
theorem le_pyRound_of_le {q : ℚ} {n : ℤ} (h : (n : ℚ) ≤ q) : n ≤ pyRound q := by
  have hb := abs_pyRound_sub_le q
  rw [abs_sub_le_iff] at hb
  have h2 : (n : ℚ) < (pyRound q : ℚ) + 1 := by linarith [hb.2]
  have h3 : n < pyRound q + 1 := by exact_mod_cast h2
  omega

/-- The raw data a `Schema` can be built from: a Python dict
`{x, y, width, height, id?}` (the `id` key is optional). -/
structure SchemaData where
  x : ℚ
  y : ℚ
  width : ℚ
  height : ℚ
  id : Option ℕ
  deriving DecidableEq, Repr

/-- `base.Schema`: a rectangle with an identity and a normalized flag.
Ids are modelled as natural numbers (the source uses random MD5 strings;
only equality of ids matters to the engine). -/
structure Schema where
  x : ℚ
  y : ℚ
  width : ℚ
  height : ℚ
  id : ℕ
  is_normal : Bool
  deriving DecidableEq, Repr

/-- The check `all(0 <= i <= 1 for i in [x, y, width, height])` run by
`Schema.__init__`. -/
def isNormalCheck (x y w h : ℚ) : Bool :=
  decide (0 ≤ x ∧ x ≤ 1) && decide (0 ≤ y ∧ y ≤ 1) &&
  decide (0 ≤ w ∧ w ≤ 1) && decide (0 ≤ h ∧ h ≤ 1)

/-- `Schema.__init__` on a dict: take the id from the dict when present,
otherwise use the freshly generated id `gen` (`generate_id` is random, so
the generated value is a parameter of the embedding); infer `is_normal`. -/
def Schema.ofData (d : SchemaData) (gen : ℕ) : Schema :=
  { x := d.x, y := d.y, width := d.width, height := d.height,
    id := d.id.getD gen,
    is_normal := isNormalCheck d.x d.y d.width d.height }

/-- `Schema.__init__` on a `Gdk.Rectangle`: the id is always freshly
generated; `is_normal` is inferred from the components. -/
def Schema.ofRect (r : Rect) (gen : ℕ) : Schema :=
  { x := r.x, y := r.y, width := r.width, height := r.height,
    id := gen,
    is_normal := isNormalCheck r.x r.y r.width r.height }

/-- The `Rect` carried by a schema (`Schema.rectangle`). -/
def Schema.rect (s : Schema) : Rect :=
  { x := s.x, y := s.y, width := s.width, height := s.height }

/-- The failure modes of `Schema` operations: a failed `assert`, a
`ScalingFailureException`, or a `NormalizationFailureException`. -/
inductive SchemaError where
  | assertionError
  | scalingFailure
  | normalizationFailure
  deriving DecidableEq, Repr

/-- `Schema.get_scaled(width, height)`: asserts `is_normal`, rounds each
component times the reference (Python `round`), fails when the scaled
width or height is `< 1`, and forces `is_normal = False` on the result.
The id is passed into the new schema through the dict. -/
def Schema.get_scaled (s : Schema) (width height : ℤ) : Except SchemaError Schema :=
  if ¬ s.is_normal then .error .assertionError
  else
    let ns := Schema.ofData
      { x := (pyRound (s.x * width) : ℚ), y := (pyRound (s.y * height) : ℚ),
        width := (pyRound (s.width * width) : ℚ), height := (pyRound (s.height * height) : ℚ),
        id := some s.id } 0
    if ns.width < 1 ∨ ns.height < 1 then .error .scalingFailure
    else .ok { ns with is_normal := false }

/-- `Schema.get_normalized(width, height)`: asserts `not is_normal` and
`width > 0 and height > 0`, divides each component by the reference, and
fails when the resulting schema is not normalized. The id is passed into
the new schema through the dict. -/
def Schema.get_normalized (s : Schema) (width height : ℤ) : Except SchemaError Schema :=
  if s.is_normal then .error .assertionError
  else if ¬ (0 < width ∧ 0 < height) then .error .assertionError
  else
    let ns := Schema.ofData
      { x := s.x / width, y := s.y / height,
        width := s.width / width, height := s.height / height,
        id := some s.id } 0
    if ¬ ns.is_normal then .error .normalizationFailure
    else .ok ns

/-- `Schema.copy()`: `Schema(self.__dict__())` — the dict representation
carries the id, so the copy keeps it; `is_normal` is re-inferred from the
(unchanged) components. -/
def Schema.copy (s : Schema) : Schema :=
  Schema.ofData { x := s.x, y := s.y, width := s.width, height := s.height, id := some s.id } 0

/-- Rounding a scaled component and dividing back moves it by at most
half a reference unit. -/
theorem roundDiv_abs_le {c : ℚ} {W : ℤ} (hW : 0 < W) :
    |(pyRound (c * W) : ℚ) / W - c| ≤ 1 / (2 * W) := by
  have hWQ : (0 : ℚ) < (W : ℚ) := by exact_mod_cast hW
  have h := abs_pyRound_sub_le (c * W)
  have heq : (pyRound (c * W) : ℚ) / W - c = ((pyRound (c * W) : ℚ) - c * W) / W := by
    field_simp
    ring
  rw [heq, abs_div, abs_of_pos hWQ]
  rw [div_le_div_iff₀ hWQ (by positivity)]
  calc |(pyRound (c * W) : ℚ) - c * W| * (2 * W)
      ≤ (1/2) * (2 * W) := by
        apply mul_le_mul_of_nonneg_right h (by positivity)
    _ = 1 * W := by ring


/-- Success characterization of `Schema.get_scaled`. -/
theorem get_scaled_eq_ok {s t : Schema} {W H : ℤ} (h : s.get_scaled W H = .ok t) :
    s.is_normal = true ∧
    t = { x := (pyRound (s.x * W) : ℚ), y := (pyRound (s.y * H) : ℚ),
          width := (pyRound (s.width * W) : ℚ), height := (pyRound (s.height * H) : ℚ),
          id := s.id, is_normal := false } := by
  unfold Schema.get_scaled at h
  by_cases hn : s.is_normal = true
  · refine ⟨hn, ?_⟩
    rw [if_neg (by simp [hn])] at h
    by_cases hlt : ((Schema.ofData
        { x := (pyRound (s.x * W) : ℚ), y := (pyRound (s.y * H) : ℚ),
          width := (pyRound (s.width * W) : ℚ), height := (pyRound (s.height * H) : ℚ),
          id := some s.id } 0).width < 1 ∨ (Schema.ofData
        { x := (pyRound (s.x * W) : ℚ), y := (pyRound (s.y * H) : ℚ),
          width := (pyRound (s.width * W) : ℚ), height := (pyRound (s.height * H) : ℚ),
          id := some s.id } 0).height < 1)
    · rw [if_pos hlt] at h
      exact absurd h (by simp)
    · rw [if_neg hlt] at h
      rw [Except.ok.injEq] at h
      exact h.symm
  · rw [if_pos (by simp [hn])] at h
    exact absurd h (by simp)

/-- Success characterization of `Schema.get_normalized`. -/
theorem get_normalized_eq_ok {s u : Schema} {W H : ℤ} (h : s.get_normalized W H = .ok u) :
    s.is_normal = false ∧ 0 < W ∧ 0 < H ∧
    u = Schema.ofData
      { x := s.x / W, y := s.y / H, width := s.width / W, height := s.height / H,
        id := some s.id } 0 ∧
    u.is_normal = true := by
  unfold Schema.get_normalized at h
  by_cases hn : s.is_normal = true
  · rw [if_pos hn] at h
    exact absurd h (by simp)
  · rw [if_neg hn] at h
    by_cases hwh : 0 < W ∧ 0 < H
    · rw [if_neg (by simp [hwh.1, hwh.2])] at h
      by_cases hu : (Schema.ofData
          { x := s.x / W, y := s.y / H, width := s.width / W, height := s.height / H,
            id := some s.id } 0).is_normal = true
      · rw [if_neg (by simp [hu])] at h
        rw [Except.ok.injEq] at h
        exact ⟨by simpa using hn, hwh.1, hwh.2, h.symm, h ▸ hu⟩
      · rw [if_pos (by simpa using hu)] at h
        exact absurd h (by simp)
    · rw [if_pos (by simpa using hwh)] at h
      exact absurd h (by simp)

/-- The concrete schema `(1/3, 1/3, 1/3, 1/3)` used as C2's counterexample. -/
def c2S : Schema := Schema.ofData ⟨1/3, 1/3, 1/3, 1/3, some 7⟩ 0

/-- C2's counterexample after scaling by `(10, 10)`: every component rounds to 3. -/
def c2T : Schema := { x := 3, y := 3, width := 3, height := 3, id := 7, is_normal := false }

/-- C2's counterexample after normalizing back: every component is `3/10`. -/
def c2U : Schema := { x := 3/10, y := 3/10, width := 3/10, height := 3/10, id := 7, is_normal := true }

theorem c2_scaled : c2S.get_scaled 10 10 = .ok c2T := by
  unfold Schema.get_scaled c2S c2T Schema.ofData isNormalCheck
  norm_num [pyRound]

theorem c2_normalized : c2T.get_normalized 10 10 = .ok c2U := by
  unfold Schema.get_normalized c2T c2U Schema.ofData isNormalCheck
  norm_num

/-- C2 counterexample: for `R = (1/3, 1/3, 1/3, 1/3)` and reference
`(10, 10)`, scaling rounds every component to `3` and normalizing back
yields `3/10`, which differs from `1/3` by `1/30` — far beyond a 10-digit
truncation precision. (The code performs no decimal truncation at all.) -/
theorem C2_counterexample :
    c2S.get_scaled 10 10 = .ok c2T ∧ c2T.get_normalized 10 10 = .ok c2U ∧
    c2U.id = c2S.id ∧ ¬ |c2U.x - c2S.x| ≤ 1/10^10 := by
  refine ⟨c2_scaled, c2_normalized, rfl, ?_⟩
  unfold c2S c2U Schema.ofData
  norm_num
  rw [show |(1:ℚ)/30| = 1/30 from abs_of_pos (by norm_num)]
  norm_num

/-- C2 (amended): for every normalized schema whose scaling against
`(W, H)` succeeds and whose scaled result normalizes back successfully,
the roundtrip preserves the id and returns, component-wise, the value
`round(c·ref)/ref` — which differs from the original component by at most
half a reference unit (`1/(2W)` resp. `1/(2H)`), not by a fixed decimal
truncation precision. -/
theorem C2_roundtrip (s t u : Schema) (W H : ℤ)
    (h1 : s.get_scaled W H = .ok t) (h2 : t.get_normalized W H = .ok u) :
    u.id = s.id ∧
    u.x = (pyRound (s.x * W) : ℚ) / W ∧ u.y = (pyRound (s.y * H) : ℚ) / H ∧
    u.width = (pyRound (s.width * W) : ℚ) / W ∧ u.height = (pyRound (s.height * H) : ℚ) / H ∧
    |u.x - s.x| ≤ 1 / (2 * W) ∧ |u.y - s.y| ≤ 1 / (2 * H) ∧
    |u.width - s.width| ≤ 1 / (2 * W) ∧ |u.height - s.height| ≤ 1 / (2 * H) := by
  obtain ⟨-, ht⟩ := get_scaled_eq_ok h1
  subst ht
  obtain ⟨-, hW, hH, hu, -⟩ := get_normalized_eq_ok h2
  subst hu
  refine ⟨rfl, rfl, rfl, rfl, rfl, ?_, ?_, ?_, ?_⟩
  · exact roundDiv_abs_le hW
  · exact roundDiv_abs_le hH
  · exact roundDiv_abs_le hW
  · exact roundDiv_abs_le hH

/-- C2 witness: the amended roundtrip theorem instantiated at the
concrete counterexample input. -/
theorem C2_roundtrip_witness :
    c2U.id = c2S.id ∧
    c2U.x = (pyRound (c2S.x * (10:ℤ)) : ℚ) / (10:ℤ) ∧ c2U.y = (pyRound (c2S.y * (10:ℤ)) : ℚ) / (10:ℤ) ∧
    c2U.width = (pyRound (c2S.width * (10:ℤ)) : ℚ) / (10:ℤ) ∧
    c2U.height = (pyRound (c2S.height * (10:ℤ)) : ℚ) / (10:ℤ) ∧
    |c2U.x - c2S.x| ≤ 1 / (2 * (10:ℤ)) ∧ |c2U.y - c2S.y| ≤ 1 / (2 * (10:ℤ)) ∧
    |c2U.width - c2S.width| ≤ 1 / (2 * (10:ℤ)) ∧ |c2U.height - c2S.height| ≤ 1 / (2 * (10:ℤ)) :=
  C2_roundtrip c2S c2T c2U 10 10 c2_scaled c2_normalized

/-- C10: `get_scaled` always marks its result pixel-mode
(`is_normal = false`), `get_normalized` always returns `is_normal = true`,
and a schema built from raw data (a dict or a `Gdk.Rectangle`) infers
`is_normal` as "all four components within `[0, 1]` inclusive" — so a
pixel rectangle lying inside the unit square is classified as normalized
on construction. -/
theorem C10_is_normal_flags :
    (∀ (s t : Schema) (W H : ℤ), s.get_scaled W H = .ok t → t.is_normal = false) ∧
    (∀ (s u : Schema) (W H : ℤ), s.get_normalized W H = .ok u → u.is_normal = true) ∧
    (∀ (d : SchemaData) (g : ℕ), (Schema.ofData d g).is_normal = true ↔
      (0 ≤ d.x ∧ d.x ≤ 1) ∧ (0 ≤ d.y ∧ d.y ≤ 1) ∧
      (0 ≤ d.width ∧ d.width ≤ 1) ∧ (0 ≤ d.height ∧ d.height ≤ 1)) ∧
    (∀ (r : Rect) (g : ℕ), (Schema.ofRect r g).is_normal = true ↔
      (0 ≤ r.x ∧ r.x ≤ 1) ∧ (0 ≤ r.y ∧ r.y ≤ 1) ∧
      (0 ≤ r.width ∧ r.width ≤ 1) ∧ (0 ≤ r.height ∧ r.height ≤ 1)) := by
  refine ⟨?_, ?_, ?_, ?_⟩
  · intro s t W H h
    obtain ⟨-, ht⟩ := get_scaled_eq_ok h
    subst ht
    rfl
  · intro s u W H h
    exact (get_normalized_eq_ok h).2.2.2.2
  · intro d g
    simp [Schema.ofData, isNormalCheck, and_assoc]
  · intro r g
    simp [Schema.ofRect, isNormalCheck, and_assoc]

/-- C10 witness: a pixel-mode schema whose components happen to lie in
the unit square is classified as normalized on construction, and a
concrete successful scaling is marked pixel-mode. -/
theorem C10_is_normal_flags_witness :
    (Schema.ofRect ⟨1/2, 0, 1, 1⟩ 5).is_normal = true ∧
    c2T.is_normal = false :=
  ⟨(C10_is_normal_flags.2.2.2 ⟨1/2, 0, 1, 1⟩ 5).mpr (by norm_num),
   C10_is_normal_flags.1 c2S c2T 10 10 c2_scaled⟩

instance : Inhabited Rect := ⟨⟨0, 0, 0, 0⟩⟩

/-- `zones.ZoneEdge.__init__`: the axis of an edge is `Axis.x` when the
side is TOP or BOTTOM and `Axis.y` otherwise (LEFT/RIGHT). -/
def edgeAxis : Side → Axis
  | .TOP => .x
  | .BOTTOM => .x
  | .LEFT => .y
  | .RIGHT => .y

/-- A member edge of a boundary: the index of its zone in the container's
child list, together with the side of that zone. The zone rectangles
themselves live in the container state (a `List Rect`). -/
structure BEdge where
  zone : ℕ
  side : Side
  deriving DecidableEq, Repr

/-- `ZoneBoundary._get_axis`: the axis shared by all member edges; `none`
models the constructor's assertion failing (mixed axes or no edges). -/
def boundaryAxis (edges : List BEdge) : Option Axis :=
  match edges with
  | [] => none
  | e :: es =>
    if es.all (fun e2 => edgeAxis e2.side == edgeAxis e.side) then some (edgeAxis e.side)
    else none

/-- The per-edge rectangle update of `ZoneBoundary.move_horizontal`: a
LEFT edge keeps its trailing edge `x + width` fixed and moves `x` to the
new position; any other edge (RIGHT) keeps `x` and resizes `width`. -/
def moveEdgeH (r : Rect) (s : Side) (position : ℚ) : Rect :=
  if s = Side.LEFT then { r with x := position, width := (r.x + r.width) - position }
  else { r with width := position - r.x }

/-- The per-edge rectangle update of `ZoneBoundary.move_vertical`: a TOP
edge keeps `y + height` fixed and moves `y`; any other edge (BOTTOM)
keeps `y` and resizes `height`. -/
def moveEdgeV (r : Rect) (s : Side) (position : ℚ) : Rect :=
  if s = Side.TOP then { r with y := position, height := (r.y + r.height) - position }
  else { r with height := position - r.y }

/-- Reallocate each member edge's zone with its updated rectangle (the
loop body shared by `move_horizontal` and `move_vertical`). -/
def applyEdges (f : Rect → Side → Rect) (edges : List BEdge) (zs : List Rect) : List Rect :=
  edges.foldl (fun acc e => acc.set e.zone (f (acc.getD e.zone default) e.side)) zs

/-- `ZoneBoundary.move_horizontal(position)`: acts only when the
boundary's axis is `Axis.y` (a vertical boundary), otherwise a no-op. -/
def move_horizontal (zs : List Rect) (edges : List BEdge) (position : ℚ) : List Rect :=
  if boundaryAxis edges = some Axis.y then
    applyEdges (fun r s => moveEdgeH r s position) edges zs
  else zs

/-- `ZoneBoundary.move_vertical(position)`: acts only when the boundary's
axis is `Axis.x` (a horizontal boundary), otherwise a no-op. -/
def move_vertical (zs : List Rect) (edges : List BEdge) (position : ℚ) : List Rect :=
  if boundaryAxis edges = some Axis.x then
    applyEdges (fun r s => moveEdgeV r s position) edges zs
  else zs

theorem applyEdges_length (f : Rect → Side → Rect) (edges : List BEdge) (zs : List Rect) :
    (applyEdges f edges zs).length = zs.length := by
  induction edges generalizing zs with
  | nil => rfl
  | cons e tl ih =>
    rw [applyEdges, List.foldl_cons, ← applyEdges, ih, List.length_set]

theorem applyEdges_getD_of_not_mem (f : Rect → Side → Rect) (edges : List BEdge)
    (zs : List Rect) (i : ℕ) (hi : i ∉ edges.map BEdge.zone) :
    (applyEdges f edges zs).getD i default = zs.getD i default := by
  induction edges generalizing zs with
  | nil => rfl
  | cons e tl ih =>
    simp only [List.map_cons, List.mem_cons, not_or] at hi
    rw [applyEdges, List.foldl_cons, ← applyEdges, ih _ hi.2,
      List.getD_eq_getElem?_getD, List.getElem?_set_ne (fun h => hi.1 h.symm),
      ← List.getD_eq_getElem?_getD]

theorem applyEdges_getD_of_mem (f : Rect → Side → Rect) (edges : List BEdge)
    (zs : List Rect) (e : BEdge) (hnd : (edges.map BEdge.zone).Nodup)
    (he : e ∈ edges) (hlt : e.zone < zs.length) :
    (applyEdges f edges zs).getD e.zone default = f (zs.getD e.zone default) e.side := by
  induction edges generalizing zs with
  | nil => exact absurd he (by simp)
  | cons a tl ih =>
    simp only [List.map_cons, List.nodup_cons] at hnd
    rw [applyEdges, List.foldl_cons, ← applyEdges]
    rcases List.mem_cons.mp he with rfl | htl
    · rw [applyEdges_getD_of_not_mem _ _ _ _ hnd.1,
        List.getD_eq_getElem?_getD, List.getElem?_set_self hlt, Option.getD_some,
        List.getD_eq_getElem?_getD]
    · have hne : e.zone ≠ a.zone := by
        intro h
        exact hnd.1 (h ▸ List.mem_map_of_mem BEdge.zone htl)
      rw [ih _ hnd.2 htl (by rw [List.length_set]; exact hlt)]
      congr 1
      rw [List.getD_eq_getElem?_getD, List.getElem?_set_ne (fun h => hne h.symm),
        ← List.getD_eq_getElem?_getD]

/-- Full description of `move_horizontal` on a vertical boundary whose
edges touch pairwise distinct zones. -/
theorem moveH_spec (zs : List Rect) (edges : List BEdge) (p : ℚ)
    (hax : boundaryAxis edges = some Axis.y)
    (hnd : (edges.map BEdge.zone).Nodup)
    (hlen : ∀ e ∈ edges, e.zone < zs.length) :
    (move_horizontal zs edges p).length = zs.length ∧
    (∀ e ∈ edges, e.side = Side.RIGHT →
       (move_horizontal zs edges p).getD e.zone default =
         { zs.getD e.zone default with width := p - (zs.getD e.zone default).x }) ∧
    (∀ e ∈ edges, e.side = Side.LEFT →
       (move_horizontal zs edges p).getD e.zone default =
         { zs.getD e.zone default with
           x := p,
           width := (zs.getD e.zone default).x + (zs.getD e.zone default).width - p }) ∧
    (∀ i, i ∉ edges.map BEdge.zone →
       (move_horizontal zs edges p).getD i default = zs.getD i default) := by
  rw [move_horizontal, if_pos hax]
  refine ⟨applyEdges_length _ _ _, ?_, ?_, ?_⟩
  · intro e he hs
    rw [applyEdges_getD_of_mem _ _ _ _ hnd he (hlen e he), moveEdgeH, if_neg (by rw [hs]; decide)]
  · intro e he hs
    rw [applyEdges_getD_of_mem _ _ _ _ hnd he (hlen e he), moveEdgeH, if_pos hs]
  · intro i hi
    exact applyEdges_getD_of_not_mem _ _ _ _ hi

/-- Full description of `move_vertical` on a horizontal boundary whose
edges touch pairwise distinct zones. -/
theorem moveV_spec (zs : List Rect) (edges : List BEdge) (p : ℚ)
    (hax : boundaryAxis edges = some Axis.x)
    (hnd : (edges.map BEdge.zone).Nodup)
    (hlen : ∀ e ∈ edges, e.zone < zs.length) :
    (move_vertical zs edges p).length = zs.length ∧
    (∀ e ∈ edges, e.side = Side.BOTTOM →
       (move_vertical zs edges p).getD e.zone default =
         { zs.getD e.zone default with height := p - (zs.getD e.zone default).y }) ∧
    (∀ e ∈ edges, e.side = Side.TOP →
       (move_vertical zs edges p).getD e.zone default =
         { zs.getD e.zone default with
           y := p,
           height := (zs.getD e.zone default).y + (zs.getD e.zone default).height - p }) ∧
    (∀ i, i ∉ edges.map BEdge.zone →
       (move_vertical zs edges p).getD i default = zs.getD i default) := by
  rw [move_vertical, if_pos hax]
  refine ⟨applyEdges_length _ _ _, ?_, ?_, ?_⟩
  · intro e he hs
    rw [applyEdges_getD_of_mem _ _ _ _ hnd he (hlen e he), moveEdgeV, if_neg (by rw [hs]; decide)]
  · intro e he hs
    rw [applyEdges_getD_of_mem _ _ _ _ hnd he (hlen e he), moveEdgeV, if_pos hs]
  · intro i hi
    exact applyEdges_getD_of_not_mem _ _ _ _ hi

/-- Every edge of a boundary with axis `some Axis.y` is LEFT or RIGHT. -/
theorem side_of_boundaryAxis_y {edges : List BEdge} (hax : boundaryAxis edges = some Axis.y) :
    ∀ e ∈ edges, e.side = Side.LEFT ∨ e.side = Side.RIGHT := by
  match edges with
  | [] => simp [boundaryAxis] at hax
  | a :: tl =>
    rw [boundaryAxis] at hax
    by_cases hall : tl.all (fun e2 => edgeAxis e2.side == edgeAxis a.side) = true
    · rw [if_pos hall, Option.some.injEq] at hax
      intro e he
      have haxe : edgeAxis e.side = Axis.y := by
        rcases List.mem_cons.mp he with rfl | htl
        · exact hax
        · have := List.all_eq_true.mp hall e htl
          rw [beq_iff_eq] at this
          rw [this, hax]
      cases h : e.side <;> rw [h] at haxe <;> simp [edgeAxis] at haxe <;> simp
    · rw [if_neg hall] at hax
      exact absurd hax (by simp)

/-- Every edge of a boundary with axis `some Axis.x` is TOP or BOTTOM. -/
theorem side_of_boundaryAxis_x {edges : List BEdge} (hax : boundaryAxis edges = some Axis.x) :
    ∀ e ∈ edges, e.side = Side.TOP ∨ e.side = Side.BOTTOM := by
  match edges with
  | [] => simp [boundaryAxis] at hax
  | a :: tl =>
    rw [boundaryAxis] at hax
    by_cases hall : tl.all (fun e2 => edgeAxis e2.side == edgeAxis a.side) = true
    · rw [if_pos hall, Option.some.injEq] at hax
      intro e he
      have haxe : edgeAxis e.side = Axis.x := by
        rcases List.mem_cons.mp he with rfl | htl
        · exact hax
        · have := List.all_eq_true.mp hall e htl
          rw [beq_iff_eq] at this
          rw [this, hax]
      cases h : e.side <;> rw [h] at haxe <;> simp [edgeAxis] at haxe <;> simp
    · rw [if_neg hall] at hax
      exact absurd hax (by simp)

/-- C3: on a vertical boundary, `move_horizontal p` gives each member
RIGHT edge's rectangle width `p - x` with `x` unchanged, and each member
LEFT edge's rectangle `x := p` with the trailing edge `x + width`
preserved; `y` and `height` of every affected rectangle stay unchanged
and unaffected rectangles do not change at all, so if the boundary sat at
position `q`, every RIGHT-side rectangle's width changes by `p - q` and
every LEFT-side rectangle's width by `-(p - q)`. The analogous statement
holds for `move_vertical` with `y`/`height` and TOP/BOTTOM edges. -/
theorem C3_boundary_move :
    (∀ (zs : List Rect) (edges : List BEdge) (p : ℚ),
      boundaryAxis edges = some Axis.y →
      (edges.map BEdge.zone).Nodup →
      (∀ e ∈ edges, e.zone < zs.length) →
      (∀ e ∈ edges, e.side = Side.RIGHT →
         (move_horizontal zs edges p).getD e.zone default =
           { zs.getD e.zone default with width := p - (zs.getD e.zone default).x }) ∧
      (∀ e ∈ edges, e.side = Side.LEFT →
         (move_horizontal zs edges p).getD e.zone default =
           { zs.getD e.zone default with
             x := p,
             width := (zs.getD e.zone default).x + (zs.getD e.zone default).width - p }) ∧
      (∀ e ∈ edges,
         ((move_horizontal zs edges p).getD e.zone default).y = (zs.getD e.zone default).y ∧
         ((move_horizontal zs edges p).getD e.zone default).height =
           (zs.getD e.zone default).height) ∧
      (∀ i, i ∉ edges.map BEdge.zone →
         (move_horizontal zs edges p).getD i default = zs.getD i default) ∧
      (∀ q : ℚ,
        (∀ e ∈ edges,
          (e.side = Side.RIGHT →
            (zs.getD e.zone default).x + (zs.getD e.zone default).width = q) ∧
          (e.side = Side.LEFT → (zs.getD e.zone default).x = q)) →
        ∀ e ∈ edges,
          (e.side = Side.RIGHT →
            ((move_horizontal zs edges p).getD e.zone default).width =
              (zs.getD e.zone default).width + (p - q)) ∧
          (e.side = Side.LEFT →
            ((move_horizontal zs edges p).getD e.zone default).width =
              (zs.getD e.zone default).width - (p - q)))) ∧
    (∀ (zs : List Rect) (edges : List BEdge) (p : ℚ),
      boundaryAxis edges = some Axis.x →
      (edges.map BEdge.zone).Nodup →
      (∀ e ∈ edges, e.zone < zs.length) →
      (∀ e ∈ edges, e.side = Side.BOTTOM →
         (move_vertical zs edges p).getD e.zone default =
           { zs.getD e.zone default with height := p - (zs.getD e.zone default).y }) ∧
      (∀ e ∈ edges, e.side = Side.TOP →
         (move_vertical zs edges p).getD e.zone default =
           { zs.getD e.zone default with
             y := p,
             height := (zs.getD e.zone default).y + (zs.getD e.zone default).height - p }) ∧
      (∀ e ∈ edges,
         ((move_vertical zs edges p).getD e.zone default).x = (zs.getD e.zone default).x ∧
         ((move_vertical zs edges p).getD e.zone default).width =
           (zs.getD e.zone default).width) ∧
      (∀ i, i ∉ edges.map BEdge.zone →
         (move_vertical zs edges p).getD i default = zs.getD i default)) := by
  constructor
  · intro zs edges p hax hnd hlen
    obtain ⟨-, hr, hl, hf⟩ := moveH_spec zs edges p hax hnd hlen
    refine ⟨hr, hl, ?_, hf, ?_⟩
    · intro e he
      rcases side_of_boundaryAxis_y hax e he with hs | hs
      · rw [hl e he hs]
        exact ⟨rfl, rfl⟩
      · rw [hr e he hs]
        exact ⟨rfl, rfl⟩
    · intro q halign e he
      constructor
      · intro hs
        rw [hr e he hs]
        have := (halign e he).1 hs
        simp only
        linarith
      · intro hs
        rw [hl e he hs]
        have := (halign e he).2 hs
        simp only
        linarith
  · intro zs edges p hax hnd hlen
    obtain ⟨-, hb, ht, hf⟩ := moveV_spec zs edges p hax hnd hlen
    refine ⟨hb, ht, ?_, hf⟩
    intro e he
    rcases side_of_boundaryAxis_x hax e he with hs | hs
    · rw [ht e he hs]
      exact ⟨rfl, rfl⟩
    · rw [hb e he hs]
      exact ⟨rfl, rfl⟩

/-- C3 witness: two zones sharing a vertical boundary at `x = 4`, moved
to `x = 6`: the left zone's width grows to 6 and the right zone is
re-anchored at 6 with width 4, with `y`/`height` untouched. -/
theorem C3_boundary_move_witness :
    (move_horizontal [⟨0, 0, 4, 10⟩, ⟨4, 0, 6, 10⟩] [⟨0, Side.RIGHT⟩, ⟨1, Side.LEFT⟩] 6).getD 0 default =
      { x := 0, y := 0, width := 6, height := 10 } ∧
    (move_horizontal [⟨0, 0, 4, 10⟩, ⟨4, 0, 6, 10⟩] [⟨0, Side.RIGHT⟩, ⟨1, Side.LEFT⟩] 6).getD 1 default =
      { x := 6, y := 0, width := 4, height := 10 } := by
  have h := C3_boundary_move.1 [⟨0, 0, 4, 10⟩, ⟨4, 0, 6, 10⟩]
    [⟨0, Side.RIGHT⟩, ⟨1, Side.LEFT⟩] 6 (by decide) (by decide) (by decide)
  constructor
  · have := h.1 ⟨0, Side.RIGHT⟩ (by decide) rfl
    rw [this]
    norm_num
  · have := h.2.1 ⟨1, Side.LEFT⟩ (by decide) rfl
    rw [this]
    norm_num

/-- C8 counterexample: `ZoneEdge.__init__` classifies a LEFT edge (which
lies on a vertical line) as `Axis.y`, not `Axis.x` as the claim states. -/
theorem C8_counterexample : edgeAxis Side.LEFT = Axis.y ∧ Axis.y ≠ Axis.x :=
  ⟨rfl, by decide⟩

/-- C8 (amended): edges on vertical lines (LEFT/RIGHT) are classified as
axis `y` and exactly they form the boundaries of axis `y`, which are the
ones `move_horizontal` moves; edges on horizontal lines (TOP/BOTTOM) are
classified as axis `x` and form the boundaries `move_vertical` moves;
calling the move operation whose direction does not match the boundary's
axis is a no-op that changes no rectangle. -/
theorem C8_axis_classification :
    (edgeAxis Side.LEFT = Axis.y ∧ edgeAxis Side.RIGHT = Axis.y ∧
     edgeAxis Side.TOP = Axis.x ∧ edgeAxis Side.BOTTOM = Axis.x) ∧
    (∀ (edges : List BEdge), edges ≠ [] →
      (boundaryAxis edges = some Axis.y ↔
        ∀ e ∈ edges, e.side = Side.LEFT ∨ e.side = Side.RIGHT)) ∧
    (∀ (edges : List BEdge), edges ≠ [] →
      (boundaryAxis edges = some Axis.x ↔
        ∀ e ∈ edges, e.side = Side.TOP ∨ e.side = Side.BOTTOM)) ∧
    (∀ (zs : List Rect) (edges : List BEdge) (p : ℚ),
      boundaryAxis edges ≠ some Axis.y → move_horizontal zs edges p = zs) ∧
    (∀ (zs : List Rect) (edges : List BEdge) (p : ℚ),
      boundaryAxis edges ≠ some Axis.x → move_vertical zs edges p = zs) := by
  refine ⟨⟨rfl, rfl, rfl, rfl⟩, ?_, ?_, ?_, ?_⟩
  · intro edges hne
    constructor
    · exact side_of_boundaryAxis_y
    · intro hall
      match edges, hne with
      | a :: tl, _ =>
        have haxa : edgeAxis a.side = Axis.y := by
          rcases hall a (by simp) with hs | hs <;> rw [hs] <;> rfl
        rw [boundaryAxis, if_pos, Option.some.injEq]
        · exact haxa
        · rw [List.all_eq_true]
          intro e2 he2
          rw [beq_iff_eq, haxa]
          rcases hall e2 (by simp [he2]) with hs | hs <;> rw [hs] <;> rfl
  · intro edges hne
    constructor
    · exact side_of_boundaryAxis_x
    · intro hall
      match edges, hne with
      | a :: tl, _ =>
        have haxa : edgeAxis a.side = Axis.x := by
          rcases hall a (by simp) with hs | hs <;> rw [hs] <;> rfl
        rw [boundaryAxis, if_pos, Option.some.injEq]
        · exact haxa
        · rw [List.all_eq_true]
          intro e2 he2
          rw [beq_iff_eq, haxa]
          rcases hall e2 (by simp [he2]) with hs | hs <;> rw [hs] <;> rfl
  · intro zs edges p hax
    rw [move_horizontal, if_neg hax]
  · intro zs edges p hax
    rw [move_vertical, if_neg hax]

/-- C8 witness: `move_horizontal` on a horizontal (axis `x`) boundary is
a no-op. -/
theorem C8_axis_classification_witness :
    move_horizontal [⟨0, 0, 4, 10⟩] [⟨0, Side.TOP⟩] 6 = [⟨0, 0, 4, 10⟩] :=
  C8_axis_classification.2.2.2.1 [⟨0, 0, 4, 10⟩] [⟨0, Side.TOP⟩] 6 (by decide)

/-- `editor.BoundPoint.get_boundary_range`: for a vertical boundary
(axis `y`) the lower bound is the maximum `x` over the zones whose RIGHT
edge is a member, plus the buffer, and the upper bound is the minimum
`x + width` over the zones whose non-RIGHT (LEFT) edges are members,
minus the buffer; for any other boundary the roles are played by
`y`/`height` and BOTTOM. `none` models Python's `max()`/`min()` raising
on an empty sequence.

`schemas` is the list of the zones' STORED schemas: the source reads
`edge.zone.schema` (editor.py lines 76 and 83), which in every reachable
editor state holds the zone's normalized `[0, 1]` coordinates — presets
are loaded normalized and `ZoneContainer._update_allocation` re-normalizes
after every structural change. It is NOT the pixel allocation that
`ZoneBoundary.move_horizontal`/`move_vertical` mutate (those read
`edge.rectangle = zone.get_allocation()`). -/
def get_boundary_range (schemas : List Rect) (edges : List BEdge) (buf : ℚ) : Option (ℚ × ℚ) :=
  let vert : Bool := boundaryAxis edges == some Axis.y
  let lowSide : Side := if vert then Side.RIGHT else Side.BOTTOM
  let lows := (edges.filter (fun e => e.side == lowSide)).map
      (fun e => if vert then (schemas.getD e.zone default).x else (schemas.getD e.zone default).y)
  let highs := (edges.filter (fun e => !(e.side == lowSide))).map
      (fun e => if vert then (schemas.getD e.zone default).x + (schemas.getD e.zone default).width
                else (schemas.getD e.zone default).y + (schemas.getD e.zone default).height)
  (lows.max?).bind (fun lo => (highs.min?).map (fun hi => (lo + buf, hi - buf)))

/-- The pixel allocations of C7's failing input: two zones splitting an
800×600 container at `x = 400`. -/
def c7allocs : List Rect := [⟨200, 0, 200, 600⟩, ⟨400, 0, 400, 600⟩]

/-- The same two zones' stored schemas: the allocations normalized
against the 800×600 container (what `edge.zone.schema` holds). The left
zone starts at pixel 200, i.e. normalized `1/4`. -/
def c7schemas : List Rect := [⟨1/4, 0, 1/4, 1⟩, ⟨1/2, 0, 1/2, 1⟩]

/-- The vertical boundary between the two zones: the left zone's RIGHT
edge and the right zone's LEFT edge. -/
def c7edges : List BEdge := [⟨0, Side.RIGHT⟩, ⟨1, Side.LEFT⟩]

/-- C7 failing input: `get_boundary_range` computes the drag range from
the zones' stored schemas, which hold normalized `[0, 1]` coordinates,
while `move_horizontal` mutates the pixel allocations and drag positions
are pixel event coordinates. At this reachable state (the schemas are
exactly the allocations normalized against the 800×600 container) with
buffer `1/8`, the schema-derived range is `(3/8, 7/8)`; the in-range
position `1/2` shrinks zone 0's allocation to width `1/2 − 200 < 0`,
far below the buffer — the claim's (and spec §4.5's) guarantee that
in-range positions keep every adjacent rectangle at least buffer wide
fails on the program. -/
theorem C7_boundary_range_bug :
    (Schema.ofRect ⟨200, 0, 200, 600⟩ 1).get_normalized 800 600 =
      .ok { x := 1/4, y := 0, width := 1/4, height := 1, id := 1, is_normal := true } ∧
    (Schema.ofRect ⟨400, 0, 400, 600⟩ 2).get_normalized 800 600 =
      .ok { x := 1/2, y := 0, width := 1/2, height := 1, id := 2, is_normal := true } ∧
    get_boundary_range c7schemas c7edges (1/8) = some (3/8, 7/8) ∧
    ((3 : ℚ)/8 ≤ 1/2 ∧ (1 : ℚ)/2 ≤ 7/8) ∧
    ((move_horizontal c7allocs c7edges (1/2)).getD 0 default).width < 1/8 := by
  refine ⟨?_, ?_, ?_, ⟨by norm_num, by norm_num⟩, ?_⟩
  · unfold Schema.get_normalized Schema.ofRect Schema.ofData isNormalCheck
    norm_num
  · unfold Schema.get_normalized Schema.ofRect Schema.ofData isNormalCheck
    norm_num
  · norm_num [get_boundary_range, c7schemas, c7edges, boundaryAxis, edgeAxis,
      List.max?, List.min?, List.filter, List.map]
  · norm_num [move_horizontal, c7allocs, c7edges, boundaryAxis, edgeAxis,
      applyEdges, moveEdgeH, List.foldl]
    rw [if_neg (by decide : ¬ Side.RIGHT = Side.LEFT)]
    norm_num

/-- `widgets.Line`: a straight line constrained (by an assert) to be
horizontal or vertical. -/
structure Line where
  x1 : ℚ
  y1 : ℚ
  x2 : ℚ
  y2 : ℚ
  deriving DecidableEq, Repr

/-- `widgets.Line.axis`: `Axis.y` when the line is vertical
(`x1 == x2`), `Axis.x` otherwise. -/
def lineAxis (l : Line) : Axis := if l.x1 = l.x2 then Axis.y else Axis.x

/-- `Zone.allocation`: a fresh `Schema` built from the zone's current
pixel allocation, whose generated id is then overwritten with the zone's
own schema id. Here a container child is modelled by the schema of its
current pixel allocation, so the rectangle is read off the child itself. -/
def Zone.alloc (z : Schema) (gen : ℕ) : Schema :=
  { Schema.ofRect z.rect gen with id := z.id }

/-- The error raised by `ZoneContainer.divide` on a non-member zone. -/
inductive ContainerError where
  | valueError
  deriving DecidableEq, Repr

/-- `ZoneContainer.divide(zone, line)`: validates first that `zone` is a
child (returning the untouched child list and a `ValueError` otherwise),
then splits the zone's allocation at the rounded line coordinate, removes
the original child and appends the two new zones. Membership in
`get_children()` is modelled by list membership. The trailing
`_update_allocation()` renormalization is not modelled: it changes only
coordinate representation via `update_schema`, which preserves every
zone's id, and it cannot raise `ValueError`. -/
def divide (children : List Schema) (zone : Schema) (ln : Line) (gen : ℕ) :
    List Schema × Option ContainerError :=
  if zone ∉ children then (children, some .valueError)
  else
    let allocation := Zone.alloc zone gen
    let alloc_a := allocation.copy
    let alloc_b := allocation.copy
    if lineAxis ln = Axis.y then
      let x : ℚ := (pyRound ln.x1 : ℚ)
      let b := { alloc_b with x := x, width := allocation.x + allocation.width - x }
      let a := { alloc_a with width := alloc_a.width - (allocation.x + allocation.width - x) }
      ((children.erase zone) ++ [a, b], none)
    else
      let y : ℚ := (pyRound ln.y1 : ℚ)
      let b := { alloc_b with y := y, height := allocation.y + allocation.height - y }
      let a := { alloc_a with height := alloc_a.height - (allocation.y + allocation.height - y) }
      ((children.erase zone) ++ [a, b], none)

/-- A point of the closed solid rectangle of a schema (used to state that
the union of the two divided rectangles is exactly the original). -/
def inRect (s : Schema) (px py : ℚ) : Prop :=
  s.x ≤ px ∧ px ≤ s.x + s.width ∧ s.y ≤ py ∧ py ≤ s.y + s.height

theorem copy_fields (s : Schema) :
    s.copy.x = s.x ∧ s.copy.y = s.y ∧ s.copy.width = s.width ∧
    s.copy.height = s.height ∧ s.copy.id = s.id :=
  ⟨rfl, rfl, rfl, rfl, rfl⟩

theorem alloc_fields (z : Schema) (gen : ℕ) :
    (Zone.alloc z gen).x = z.x ∧ (Zone.alloc z gen).y = z.y ∧
    (Zone.alloc z gen).width = z.width ∧ (Zone.alloc z gen).height = z.height ∧
    (Zone.alloc z gen).id = z.id :=
  ⟨rfl, rfl, rfl, rfl, rfl⟩

/-- Success characterization of `divide` for a vertical dividing line. -/
theorem divide_ok_v (children : List Schema) (zone : Schema) (ln : Line) (gen : ℕ)
    (hmem : zone ∈ children) (hax : lineAxis ln = Axis.y) :
    divide children zone ln gen =
      ((children.erase zone) ++
        [{ (Zone.alloc zone gen).copy with
           width := (Zone.alloc zone gen).copy.width -
             (zone.x + zone.width - (pyRound ln.x1 : ℚ)) },
         { (Zone.alloc zone gen).copy with
           x := (pyRound ln.x1 : ℚ),
           width := zone.x + zone.width - (pyRound ln.x1 : ℚ) }], none) := by
  rw [divide, if_neg (by simpa using hmem), if_pos hax]
  rfl

/-- Success characterization of `divide` for a horizontal dividing line. -/
theorem divide_ok_h (children : List Schema) (zone : Schema) (ln : Line) (gen : ℕ)
    (hmem : zone ∈ children) (hax : ¬ lineAxis ln = Axis.y) :
    divide children zone ln gen =
      ((children.erase zone) ++
        [{ (Zone.alloc zone gen).copy with
           height := (Zone.alloc zone gen).copy.height -
             (zone.y + zone.height - (pyRound ln.y1 : ℚ)) },
         { (Zone.alloc zone gen).copy with
           y := (pyRound ln.y1 : ℚ),
           height := zone.y + zone.height - (pyRound ln.y1 : ℚ) }], none) := by
  rw [divide, if_neg (by simpa using hmem), if_neg hax]
  rfl

/-- C4: dividing a member zone along a vertical line through it yields
two rectangles at full height, the first spanning from the zone's `x` to
the rounded line coordinate and the second from there to `x + width`;
their areas sum to the zone's area and (when the line passes through the
zone) their union is exactly the zone's rectangle. Analogously for a
horizontal line with `y`/`height`. -/
theorem C4_divide_geometry :
    (∀ (children : List Schema) (zone : Schema) (ln : Line) (gen : ℕ) (res : List Schema),
      zone ∈ children → lineAxis ln = Axis.y →
      divide children zone ln gen = (res, none) →
      ∃ a b, res = (children.erase zone) ++ [a, b] ∧
        a.x = zone.x ∧ a.y = zone.y ∧ a.height = zone.height ∧
        a.x + a.width = (pyRound ln.x1 : ℚ) ∧
        b.x = (pyRound ln.x1 : ℚ) ∧ b.y = zone.y ∧ b.height = zone.height ∧
        b.x + b.width = zone.x + zone.width ∧
        a.width * a.height + b.width * b.height = zone.width * zone.height ∧
        (zone.x ≤ (pyRound ln.x1 : ℚ) → (pyRound ln.x1 : ℚ) ≤ zone.x + zone.width →
          ∀ px py : ℚ, (inRect a px py ∨ inRect b px py) ↔ inRect zone px py)) ∧
    (∀ (children : List Schema) (zone : Schema) (ln : Line) (gen : ℕ) (res : List Schema),
      zone ∈ children → lineAxis ln = Axis.x →
      divide children zone ln gen = (res, none) →
      ∃ a b, res = (children.erase zone) ++ [a, b] ∧
        a.y = zone.y ∧ a.x = zone.x ∧ a.width = zone.width ∧
        a.y + a.height = (pyRound ln.y1 : ℚ) ∧
        b.y = (pyRound ln.y1 : ℚ) ∧ b.x = zone.x ∧ b.width = zone.width ∧
        b.y + b.height = zone.y + zone.height ∧
        a.width * a.height + b.width * b.height = zone.width * zone.height ∧
        (zone.y ≤ (pyRound ln.y1 : ℚ) → (pyRound ln.y1 : ℚ) ≤ zone.y + zone.height →
          ∀ px py : ℚ, (inRect a px py ∨ inRect b px py) ↔ inRect zone px py)) := by
  constructor
  · intro children zone ln gen res hmem hax hdiv
    rw [divide_ok_v children zone ln gen hmem hax] at hdiv
    have hres := (Prod.mk.injEq _ _ _ _).mp hdiv |>.1.symm
    refine ⟨_, _, hres, rfl, rfl, rfl, ?_, rfl, rfl, rfl, ?_, ?_, ?_⟩
    · show zone.x + (zone.width - (zone.x + zone.width - (pyRound ln.x1 : ℚ))) = _
      ring
    · show (pyRound ln.x1 : ℚ) + (zone.x + zone.width - (pyRound ln.x1 : ℚ)) = _
      ring
    · show (zone.width - (zone.x + zone.width - (pyRound ln.x1 : ℚ))) * zone.height +
        (zone.x + zone.width - (pyRound ln.x1 : ℚ)) * zone.height = _
      ring
    · intro hlb hub px py
      simp only [inRect]
      show (zone.x ≤ px ∧ px ≤ zone.x + (zone.width - (zone.x + zone.width - (pyRound ln.x1 : ℚ))) ∧
          zone.y ≤ py ∧ py ≤ zone.y + zone.height) ∨
        ((pyRound ln.x1 : ℚ) ≤ px ∧ px ≤ (pyRound ln.x1 : ℚ) + (zone.x + zone.width - (pyRound ln.x1 : ℚ)) ∧
          zone.y ≤ py ∧ py ≤ zone.y + zone.height) ↔ _
      constructor
      · rintro (⟨h1, h2, h3, h4⟩ | ⟨h1, h2, h3, h4⟩) <;>
          exact ⟨by linarith, by linarith, h3, h4⟩
      · rintro ⟨h1, h2, h3, h4⟩
        by_cases hcase : px ≤ (pyRound ln.x1 : ℚ)
        · exact Or.inl ⟨h1, by linarith, h3, h4⟩
        · exact Or.inr ⟨by linarith, by linarith, h3, h4⟩
  · intro children zone ln gen res hmem hax hdiv
    rw [divide_ok_h children zone ln gen hmem (by rw [hax]; decide)] at hdiv
    have hres := (Prod.mk.injEq _ _ _ _).mp hdiv |>.1.symm
    refine ⟨_, _, hres, rfl, rfl, rfl, ?_, rfl, rfl, rfl, ?_, ?_, ?_⟩
    · show zone.y + (zone.height - (zone.y + zone.height - (pyRound ln.y1 : ℚ))) = _
      ring
    · show (pyRound ln.y1 : ℚ) + (zone.y + zone.height - (pyRound ln.y1 : ℚ)) = _
      ring
    · show zone.width * (zone.height - (zone.y + zone.height - (pyRound ln.y1 : ℚ))) +
        zone.width * (zone.y + zone.height - (pyRound ln.y1 : ℚ)) = _
      ring
    · intro hlb hub px py
      simp only [inRect]
      show (zone.x ≤ px ∧ px ≤ zone.x + zone.width ∧ zone.y ≤ py ∧
          py ≤ zone.y + (zone.height - (zone.y + zone.height - (pyRound ln.y1 : ℚ)))) ∨
        (zone.x ≤ px ∧ px ≤ zone.x + zone.width ∧ (pyRound ln.y1 : ℚ) ≤ py ∧
          py ≤ (pyRound ln.y1 : ℚ) + (zone.y + zone.height - (pyRound ln.y1 : ℚ))) ↔ _
      constructor
      · rintro (⟨h1, h2, h3, h4⟩ | ⟨h1, h2, h3, h4⟩) <;>
          exact ⟨h1, h2, by linarith, by linarith⟩
      · rintro ⟨h1, h2, h3, h4⟩
        by_cases hcase : py ≤ (pyRound ln.y1 : ℚ)
        · exact Or.inl ⟨h1, h2, h3, by linarith⟩
        · exact Or.inr ⟨h1, h2, by linarith, by linarith⟩

/-- C4 witness: dividing the unit-origin zone `(0, 0, 4, 4)` at the
vertical line `x = 2` splits it into two `2 × 4` halves. -/
theorem C4_divide_geometry_witness :
    ∃ a b, (divide [{ x := 0, y := 0, width := 4, height := 4, id := 9, is_normal := false }]
        { x := 0, y := 0, width := 4, height := 4, id := 9, is_normal := false }
        ⟨2, 0, 2, 4⟩ 55).1 =
      (([{ x := 0, y := 0, width := 4, height := 4, id := 9, is_normal := false }].erase
        { x := 0, y := 0, width := 4, height := 4, id := 9, is_normal := false }) ++ [a, b]) ∧
      a.x = 0 ∧ a.y = 0 ∧ a.height = 4 ∧ a.x + a.width = (pyRound (2 : ℚ) : ℚ) ∧
      b.x = (pyRound (2 : ℚ) : ℚ) ∧ b.y = 0 ∧ b.height = 4 ∧ b.x + b.width = 0 + 4 ∧
      a.width * a.height + b.width * b.height = 4 * 4 := by
  have h := C4_divide_geometry.1
    [{ x := 0, y := 0, width := 4, height := 4, id := 9, is_normal := false }]
    { x := 0, y := 0, width := 4, height := 4, id := 9, is_normal := false }
    ⟨2, 0, 2, 4⟩ 55 _
    (by simp) (by simp [lineAxis])
    (by rw [divide_ok_v _ _ _ _ (by simp) (by simp [lineAxis])])
  obtain ⟨a, b, h1, h2, h3, h4, h5, h6, h7, h8, h9, h10, -⟩ := h
  exact ⟨a, b, h1, h2, h3, h4, h5, h6, h7, h8, h9, h10⟩

/-- C5 counterexample: dividing the single zone of a container yields two
rectangles whose ids both equal the original's id — `Schema.copy`
passes the id through `__dict__()`, so neither gets a fresh id. -/
theorem C5_counterexample :
    (divide [{ x := 0, y := 0, width := 4, height := 4, id := 9, is_normal := false }]
        { x := 0, y := 0, width := 4, height := 4, id := 9, is_normal := false }
        ⟨2, 0, 2, 4⟩ 55).2 = none ∧
    ((divide [{ x := 0, y := 0, width := 4, height := 4, id := 9, is_normal := false }]
        { x := 0, y := 0, width := 4, height := 4, id := 9, is_normal := false }
        ⟨2, 0, 2, 4⟩ 55).1.map Schema.id) = [9, 9] := by
  rw [divide_ok_v _ _ _ _ (by simp) (by simp [lineAxis])]
  constructor
  · rfl
  · simp [Zone.alloc, Schema.copy, Schema.ofData, Schema.ofRect, Schema.rect]

/-- C5 (amended): every successful `divide` removes the original
rectangle from the child list and inserts two new rectangles — but each
of them carries the original's id (`copy()` preserves the id through the
dict representation), not a fresh one. -/
theorem C5_divide_identity (children : List Schema) (zone : Schema) (ln : Line) (gen : ℕ)
    (res : List Schema) (h : divide children zone ln gen = (res, none)) :
    zone ∈ children ∧
    ∃ a b, res = (children.erase zone) ++ [a, b] ∧ a.id = zone.id ∧ b.id = zone.id := by
  by_cases hmem : zone ∈ children
  · refine ⟨hmem, ?_⟩
    by_cases hax : lineAxis ln = Axis.y
    · rw [divide_ok_v children zone ln gen hmem hax] at h
      have hres := (Prod.mk.injEq _ _ _ _).mp h |>.1.symm
      exact ⟨_, _, hres, rfl, rfl⟩
    · rw [divide_ok_h children zone ln gen hmem hax] at h
      have hres := (Prod.mk.injEq _ _ _ _).mp h |>.1.symm
      exact ⟨_, _, hres, rfl, rfl⟩
  · rw [divide, if_pos hmem] at h
    exact absurd ((Prod.mk.injEq _ _ _ _).mp h).2 (by simp)

/-- C5 witness: the amended theorem instantiated at the counterexample
container. -/
theorem C5_divide_identity_witness :
    ({ x := 0, y := 0, width := 4, height := 4, id := 9, is_normal := false } : Schema) ∈
      [({ x := 0, y := 0, width := 4, height := 4, id := 9, is_normal := false } : Schema)] ∧
    ∃ a b, (divide [{ x := 0, y := 0, width := 4, height := 4, id := 9, is_normal := false }]
        { x := 0, y := 0, width := 4, height := 4, id := 9, is_normal := false }
        ⟨2, 0, 2, 4⟩ 55).1 =
      (([{ x := 0, y := 0, width := 4, height := 4, id := 9, is_normal := false }].erase
        { x := 0, y := 0, width := 4, height := 4, id := 9, is_normal := false }) ++ [a, b]) ∧
      a.id = 9 ∧ b.id = 9 :=
  C5_divide_identity
    [{ x := 0, y := 0, width := 4, height := 4, id := 9, is_normal := false }]
    { x := 0, y := 0, width := 4, height := 4, id := 9, is_normal := false }
    ⟨2, 0, 2, 4⟩ 55 _
    (by rw [divide_ok_v _ _ _ _ (by simp) (by simp [lineAxis])])

/-- C6: `divide` returns a `ValueError` exactly when the zone is not a
child of the container, and in that error case the child list is exactly
as before the call (the membership check runs before any mutation). -/
theorem C6_divide_validation :
    (∀ (children : List Schema) (zone : Schema) (ln : Line) (gen : ℕ),
      zone ∉ children →
      divide children zone ln gen = (children, some ContainerError.valueError)) ∧
    (∀ (children : List Schema) (zone : Schema) (ln : Line) (gen : ℕ)
        (res : List Schema) (err : Option ContainerError),
      divide children zone ln gen = (res, err) →
      (err = some ContainerError.valueError ↔ zone ∉ children)) ∧
    (∀ (children : List Schema) (zone : Schema) (ln : Line) (gen : ℕ)
        (res : List Schema) (err : Option ContainerError),
      divide children zone ln gen = (res, err) → err ≠ none → res = children) := by
  have herr : ∀ (children : List Schema) (zone : Schema) (ln : Line) (gen : ℕ),
      zone ∉ children →
      divide children zone ln gen = (children, some ContainerError.valueError) := by
    intro children zone ln gen hmem
    rw [divide, if_pos hmem]
  refine ⟨herr, ?_, ?_⟩
  · intro children zone ln gen res err h
    by_cases hmem : zone ∈ children
    · constructor
      · intro habs
        by_cases hax : lineAxis ln = Axis.y
        · rw [divide_ok_v children zone ln gen hmem hax] at h
          have := ((Prod.mk.injEq _ _ _ _).mp h).2
          rw [← this] at habs
          exact absurd habs (by simp)
        · rw [divide_ok_h children zone ln gen hmem hax] at h
          have := ((Prod.mk.injEq _ _ _ _).mp h).2
          rw [← this] at habs
          exact absurd habs (by simp)
      · intro habs
        exact absurd hmem habs
    · rw [herr children zone ln gen hmem] at h
      have := ((Prod.mk.injEq _ _ _ _).mp h).2
      exact ⟨fun _ => hmem, fun _ => this.symm⟩
  · intro children zone ln gen res err h hne
    by_cases hmem : zone ∈ children
    · by_cases hax : lineAxis ln = Axis.y
      · rw [divide_ok_v children zone ln gen hmem hax] at h
        exact absurd ((Prod.mk.injEq _ _ _ _).mp h).2.symm hne
      · rw [divide_ok_h children zone ln gen hmem hax] at h
        exact absurd ((Prod.mk.injEq _ _ _ _).mp h).2.symm hne
    · rw [herr children zone ln gen hmem] at h
      exact ((Prod.mk.injEq _ _ _ _).mp h).1.symm

/-- C6 witness: dividing a zone that is not a child leaves the (empty)
container untouched and reports the `ValueError`. -/
theorem C6_divide_validation_witness :
    divide [] { x := 0, y := 0, width := 4, height := 4, id := 9, is_normal := false }
      ⟨2, 0, 2, 4⟩ 55 = ([], some ContainerError.valueError) :=
  C6_divide_validation.1 []
    { x := 0, y := 0, width := 4, height := 4, id := 9, is_normal := false }
    ⟨2, 0, 2, 4⟩ 55 (by simp)

/-- The half-open membership test of `ZoneContainer.get_zone`:
`allocation.x <= x < allocation.x + allocation.width` and likewise for
`y`. -/
def containsPt (r : Rect) (px py : ℚ) : Bool :=
  decide (r.x ≤ px) && decide (px < r.x + r.width) &&
  decide (r.y ≤ py) && decide (py < r.y + r.height)

/-- `ZoneContainer.get_zone(x, y)`: iterate over the children in order
and return the first whose allocation contains the point; `None` (here
`none`) when no child does. (The source asserts a nonzero allocation
before the loop; the claim is scoped to allocated containers.) -/
def get_zone (zs : List Rect) (px py : ℚ) : Option Rect :=
  zs.find? (fun r => containsPt r px py)

/-- C9: `get_zone` returns a zone exactly when that zone's allocation
contains the point under half-open semantics — so a returned zone
contains the point, `none` is returned iff no zone contains it, under
pairwise disjointness (at the point) the containing zone is returned, a
zone whose right or bottom edge passes through the point does not catch
it (the point belongs to the zone that begins there), and a point on the
container's right or bottom outer edge lies in no zone. -/
theorem C9_get_zone :
    (∀ (zs : List Rect) (px py : ℚ) (r : Rect),
      get_zone zs px py = some r → r ∈ zs ∧ containsPt r px py = true) ∧
    (∀ (zs : List Rect) (px py : ℚ),
      get_zone zs px py = none ↔ ∀ r ∈ zs, containsPt r px py = false) ∧
    (∀ (zs : List Rect) (px py : ℚ) (r : Rect),
      (∀ a ∈ zs, ∀ b ∈ zs, containsPt a px py = true → containsPt b px py = true → a = b) →
      r ∈ zs → containsPt r px py = true → get_zone zs px py = some r) ∧
    (∀ (r : Rect) (px py : ℚ), r.x + r.width ≤ px → containsPt r px py = false) ∧
    (∀ (r : Rect) (px py : ℚ), r.y + r.height ≤ py → containsPt r px py = false) ∧
    (∀ (zs : List Rect) (px py B : ℚ),
      (∀ r ∈ zs, r.x + r.width ≤ B) → B ≤ px → get_zone zs px py = none) := by
  have hcontains : ∀ (r : Rect) (px py : ℚ), containsPt r px py = true ↔
      (r.x ≤ px ∧ px < r.x + r.width ∧ r.y ≤ py ∧ py < r.y + r.height) := by
    intro r px py
    simp [containsPt, and_assoc]
  have hxfalse : ∀ (r : Rect) (px py : ℚ), r.x + r.width ≤ px → containsPt r px py = false := by
    intro r px py h
    rw [← Bool.not_eq_true, hcontains]
    rintro ⟨-, h2, -, -⟩
    linarith
  have hyfalse : ∀ (r : Rect) (px py : ℚ), r.y + r.height ≤ py → containsPt r px py = false := by
    intro r px py h
    rw [← Bool.not_eq_true, hcontains]
    rintro ⟨-, -, -, h4⟩
    linarith
  refine ⟨?_, ?_, ?_, hxfalse, hyfalse, ?_⟩
  · intro zs px py r h
    rw [get_zone] at h
    exact ⟨List.mem_of_find?_eq_some h, List.find?_some (p := fun r => containsPt r px py) h⟩
  · intro zs px py
    rw [get_zone, List.find?_eq_none]
    constructor
    · intro h r hr
      have := h r hr
      simpa using this
    · intro h r hr
      rw [h r hr]
      simp
  · intro zs px py r huniq hr hc
    induction zs with
    | nil => exact absurd hr (by simp)
    | cons a tl ih =>
      rw [get_zone, List.find?_cons]
      rcases List.mem_cons.mp hr with rfl | htl
      · rw [hc]
      · by_cases hca : containsPt a px py = true
        · have : a = r := huniq a (by simp) r (by simp [htl]) hca hc
          rw [this, hc]
        · rw [Bool.not_eq_true] at hca
          rw [hca]
          exact ih (fun a2 ha2 b hb => huniq a2 (by simp [ha2]) b (by simp [hb])) htl
  · intro zs px py B hall hB
    rw [get_zone, List.find?_eq_none]
    intro r hr
    rw [hxfalse r px py (le_trans (hall r hr) hB)]
    simp

/-- C9 witness: in a container of two abutting zones, the point on the
shared boundary `x = 4` belongs to the zone that begins there; the point
on the container's right outer edge belongs to no zone. -/
theorem C9_get_zone_witness :
    get_zone [⟨0, 0, 4, 10⟩, ⟨4, 0, 6, 10⟩] 4 5 = some ⟨4, 0, 6, 10⟩ ∧
    get_zone [⟨0, 0, 4, 10⟩, ⟨4, 0, 6, 10⟩] 10 5 = none := by
  constructor
  · apply C9_get_zone.2.2.1 [⟨0, 0, 4, 10⟩, ⟨4, 0, 6, 10⟩] 4 5 ⟨4, 0, 6, 10⟩
    · intro a ha b hb hca hcb
      rcases List.mem_cons.mp ha with rfl | ha2
      · exact absurd hca (by simp [containsPt])
      · rcases List.mem_cons.mp hb with rfl | hb2
        · exact absurd hcb (by simp [containsPt])
        · simp only [List.mem_singleton] at ha2 hb2
          rw [ha2, hb2]
    · simp
    · norm_num [containsPt]
  · apply C9_get_zone.2.2.2.2.2 [⟨0, 0, 4, 10⟩, ⟨4, 0, 6, 10⟩] 10 5 10
    · intro r hr
      rcases List.mem_cons.mp hr with rfl | hr2
      · norm_num
      · simp only [List.mem_singleton] at hr2
        rw [hr2]
        norm_num
    · norm_num

/-- A node of the `RectangleSideGraph`: one side of one zone, identified
by the zone's index in the container's child list. -/
structure GNode where
  zone : ℕ
  side : Side
  deriving DecidableEq, Repr

/-- The bounding box `(minx, miny, maxx, maxy)` of a side's `LineString`
position, as returned by shapely's `bounds`: the componentwise min/max of
the segment's two endpoints. -/
structure SegBounds where
  minx : ℚ
  miny : ℚ
  maxx : ℚ
  maxy : ℚ
  deriving DecidableEq, Repr

/-- `AbstractRectangleSide.position` (the side's endpoints), reduced to
its shapely `bounds`. -/
def sideBounds (r : Rect) : Side → SegBounds
  | .TOP => ⟨min r.x (r.x + r.width), min r.y r.y, max r.x (r.x + r.width), max r.y r.y⟩
  | .BOTTOM => ⟨min r.x (r.x + r.width), min (r.y + r.height) (r.y + r.height),
      max r.x (r.x + r.width), max (r.y + r.height) (r.y + r.height)⟩
  | .LEFT => ⟨min r.x r.x, min r.y (r.y + r.height), max r.x r.x, max r.y (r.y + r.height)⟩
  | .RIGHT => ⟨min (r.x + r.width) (r.x + r.width), min r.y (r.y + r.height),
      max (r.x + r.width) (r.x + r.width), max r.y (r.y + r.height)⟩

/-- The bounds of a graph node's side segment, looked up in the
container's current rectangle list. -/
def nodeBounds (zs : List Rect) (n : GNode) : SegBounds :=
  sideBounds (zs.getD n.zone default) n.side

/-- `u.position.intersects(v.position) or u.position.touches(v.position)`
for the axis-aligned side segments this algorithm compares: `touches`
implies `intersects`, and two axis-aligned segments intersect exactly
when their (degenerate) closed bounding boxes overlap. -/
def segTouch (a b : SegBounds) : Bool :=
  decide (a.minx ≤ b.maxx) && decide (b.minx ≤ a.maxx) &&
  decide (a.miny ≤ b.maxy) && decide (b.miny ≤ a.maxy)

/-- Lexicographic comparison of Python sort-key tuples. -/
def keyLe (a b : ℚ × ℚ) : Bool :=
  decide (a.1 < b.1) || (decide (a.1 = b.1) && decide (a.2 ≤ b.2))

/-- Insert before the first element whose key is not smaller: together
with `pySort` this implements Python's stable `list.sort(key=...)`. -/
def insertSorted (key : GNode → ℚ × ℚ) (a : GNode) : List GNode → List GNode
  | [] => [a]
  | b :: bs => if keyLe (key a) (key b) then a :: b :: bs else b :: insertSorted key a bs

/-- Stable sort by key (insertion sort: same output as any stable sort,
in particular Python's). -/
def pySort (key : GNode → ℚ × ℚ) : List GNode → List GNode
  | [] => []
  | a :: as => insertSorted key a (pySort key as)

/-- `itertools.groupby`: group consecutive elements with equal keys. -/
def groupRuns (key : GNode → ℚ) : List GNode → List (List GNode)
  | [] => []
  | a :: as =>
    match groupRuns key as with
    | [] => [[a]]
    | [] :: gs => [a] :: gs
    | (b :: g) :: gs =>
      if key a = key b then (a :: b :: g) :: gs else [a] :: (b :: g) :: gs

/-- The sort key of `RectangleSideGraph._sort_and_group`:
`(bounds[op_axis], bounds[axis])` — for a candidate set of LEFT/RIGHT
(axis `y`) edges this is `(minx, miny)`, otherwise `(miny, minx)`. -/
def sortKey (zs : List Rect) (vertical : Bool) (n : GNode) : ℚ × ℚ :=
  let b := nodeBounds zs n
  if vertical then (b.minx, b.miny) else (b.miny, b.minx)

/-- `RectangleSideGraph._sort_and_group`: sort the candidate edges by
(opposite-axis, primary-axis) position and group them by the
opposite-axis coordinate. -/
def sort_and_group (zs : List Rect) (nodes : List GNode) : List (List GNode) :=
  let vertical : Bool := nodes.all (fun n => edgeAxis n.side == Axis.y)
  let sorted := pySort (sortKey zs vertical) nodes
  groupRuns (fun n => (sortKey zs vertical n).1) sorted

/-- The LEFT/RIGHT candidate nodes (`y_nodes`), two per zone in child
order. -/
def yNodes (zs : List Rect) : List GNode :=
  ((List.range zs.length).map (fun i => [⟨i, Side.LEFT⟩, ⟨i, Side.RIGHT⟩])).flatten

/-- The TOP/BOTTOM candidate nodes (`x_nodes`), two per zone in child
order. -/
def xNodes (zs : List Rect) : List GNode :=
  ((List.range zs.length).map (fun i => [⟨i, Side.TOP⟩, ⟨i, Side.BOTTOM⟩])).flatten

/-- All 16 graph nodes (`add_nodes_from((left, right, top, bottom))` per
zone). -/
def graphNodes (zs : List Rect) : List GNode :=
  ((List.range zs.length).map
    (fun i => [⟨i, Side.LEFT⟩, ⟨i, Side.RIGHT⟩, ⟨i, Side.TOP⟩, ⟨i, Side.BOTTOM⟩])).flatten

/-- `RectangleSideGraph._add_edges`: connect consecutive sorted nodes
whose side segments touch or intersect. -/
def addEdges (zs : List Rect) (nodes : List GNode) : List (GNode × GNode) :=
  (nodes.zip nodes.tail).filter (fun e => segTouch (nodeBounds zs e.1) (nodeBounds zs e.2))

/-- The edge set built by `RectangleSideGraph._generate`: sort and group
each candidate set, drop the first and last group (the container's outer
perimeter), and connect consecutive touching edges of what remains. -/
def graphEdges (zs : List Rect) : List (GNode × GNode) :=
  let ys := sort_and_group zs (yNodes zs)
  let xs := sort_and_group zs (xNodes zs)
  let ymid := ((ys.drop 1).dropLast).flatten
  let xmid := ((xs.drop 1).dropLast).flatten
  addEdges zs ymid ++ addEdges zs xmid

/-- A node is kept iff some graph edge touches it
(`remove_nodes_from(nx.isolates(...))`). -/
def hasEdge (es : List (GNode × GNode)) (n : GNode) : Bool :=
  es.any (fun e => e.1 == n || e.2 == n)

/-- The graph's node list after isolated nodes are removed. -/
def nonIsolated (zs : List Rect) : List GNode :=
  (graphNodes zs).filter (hasEdge (graphEdges zs))

/-- Neighbours of a node in the edge list. -/
def nbrs (es : List (GNode × GNode)) (n : GNode) : List GNode :=
  es.foldr (fun e acc =>
    if e.1 == n then e.2 :: acc else if e.2 == n then e.1 :: acc else acc) []

/-- Breadth-first search with explicit fuel (each step consumes one
frontier entry). -/
def bfs (es : List (GNode × GNode)) : ℕ → List GNode → List GNode → List GNode
  | 0, visited, _ => visited
  | _ + 1, visited, [] => visited
  | fuel + 1, visited, f :: fs =>
    if visited.contains f then bfs es fuel visited fs
    else bfs es fuel (visited ++ [f]) (fs ++ nbrs es f)

/-- The components produced by `nx.connected_components`: BFS from each
not-yet-seen node, in node order. -/
def componentsAux (es : List (GNode × GNode)) (fuel : ℕ) :
    List GNode → List GNode → List (List GNode)
  | [], _ => []
  | n :: rest, seen =>
    if seen.contains n then componentsAux es fuel rest seen
    else
      let comp := bfs es fuel [] [n]
      comp :: componentsAux es fuel rest (seen ++ comp)

/-- `RectangleSideGraph.get_connected_components` on the graph built from
the given zones: the list of connected components (each one boundary)
after isolated nodes are removed. The fuel bounds the total number of
BFS steps: at most `nodes` new visits, each adding at most `2·edges`
frontier entries. -/
def get_connected_components (zs : List Rect) : List (List GNode) :=
  let es := graphEdges zs
  let ns := nonIsolated zs
  componentsAux es ((ns.length + 1) * (2 * es.length + 2)) ns []

/-- A container holding 4 equal `w × h` rectangles arranged as a 2×2
grid with top-left corner `(x0, y0)`, in row-major child order:
top-left, top-right, bottom-left, bottom-right. -/
def twoByTwo (x0 y0 w h : ℚ) : List Rect :=
  [⟨x0, y0, w, h⟩, ⟨x0 + w, y0, w, h⟩, ⟨x0, y0 + h, w, h⟩, ⟨x0 + w, y0 + h, w, h⟩]

theorem keyLe_lt {a b u v : ℚ} (h : a < b) : keyLe (a, u) (b, v) = true := by
  simp [keyLe, h]

theorem keyLe_gt {a b u v : ℚ} (h : b < a) : keyLe (a, u) (b, v) = false := by
  simp only [keyLe, Bool.or_eq_false_iff, decide_eq_false_iff_not, Bool.and_eq_false_iff]
  constructor
  · intro hc
    exact absurd hc (by linarith)
  · left
    intro hc
    exact absurd hc (by linarith [h])

theorem keyLe_eq_le {x u v : ℚ} (h : u ≤ v) : keyLe (x, u) (x, v) = true := by
  simp [keyLe, h]

theorem keyLe_eq_gt {x u v : ℚ} (h : v < u) : keyLe (x, u) (x, v) = false := by
  simp only [keyLe, Bool.or_eq_false_iff, decide_eq_false_iff_not, Bool.and_eq_false_iff]
  constructor
  · exact lt_irrefl x
  · right
    intro hc
    exact absurd hc (by linarith)

/-- The edge set `_generate` builds for any 2×2 grid of equal
rectangles: a path through the four LEFT/RIGHT edges on the shared
vertical mid-line and a path through the four TOP/BOTTOM edges on the
shared horizontal mid-line. -/
theorem graphEdges_twoByTwo (x0 y0 w h : ℚ) (hw : 0 < w) (hh : 0 < h) :
    graphEdges (twoByTwo x0 y0 w h) =
      [(⟨0, Side.RIGHT⟩, ⟨1, Side.LEFT⟩), (⟨1, Side.LEFT⟩, ⟨2, Side.RIGHT⟩),
       (⟨2, Side.RIGHT⟩, ⟨3, Side.LEFT⟩),
       (⟨0, Side.BOTTOM⟩, ⟨2, Side.TOP⟩), (⟨2, Side.TOP⟩, ⟨1, Side.BOTTOM⟩),
       (⟨1, Side.BOTTOM⟩, ⟨3, Side.TOP⟩)] := by
  have hmy1 : min y0 (y0 + h) = y0 := min_eq_left (by linarith)
  have hMy1 : max y0 (y0 + h) = y0 + h := max_eq_right (by linarith)
  have hmy2 : min (y0 + h) (y0 + h + h) = y0 + h := min_eq_left (by linarith)
  have hMy2 : max (y0 + h) (y0 + h + h) = y0 + h + h := max_eq_right (by linarith)
  have hmx1 : min x0 (x0 + w) = x0 := min_eq_left (by linarith)
  have hMx1 : max x0 (x0 + w) = x0 + w := max_eq_right (by linarith)
  have hmx2 : min (x0 + w) (x0 + w + w) = x0 + w := min_eq_left (by linarith)
  have hMx2 : max (x0 + w) (x0 + w + w) = x0 + w + w := max_eq_right (by linarith)
  have hab : x0 < x0 + w := by linarith
  have hbc : x0 + w < x0 + w + w := by linarith
  have hac : x0 < x0 + w + w := by linarith
  have huv : y0 < y0 + h := by linarith
  have hvt : y0 + h < y0 + h + h := by linarith
  have hut : y0 < y0 + h + h := by linarith
  have b0L : nodeBounds (twoByTwo x0 y0 w h) ⟨0, Side.LEFT⟩ = ⟨x0, y0, x0, y0 + h⟩ := by
    simp [nodeBounds, sideBounds, twoByTwo, hmy1, hMy1]
  have b0R : nodeBounds (twoByTwo x0 y0 w h) ⟨0, Side.RIGHT⟩ = ⟨x0 + w, y0, x0 + w, y0 + h⟩ := by
    simp [nodeBounds, sideBounds, twoByTwo, hmy1, hMy1]
  have b1L : nodeBounds (twoByTwo x0 y0 w h) ⟨1, Side.LEFT⟩ = ⟨x0 + w, y0, x0 + w, y0 + h⟩ := by
    simp [nodeBounds, sideBounds, twoByTwo, hmy1, hMy1]
  have b1R : nodeBounds (twoByTwo x0 y0 w h) ⟨1, Side.RIGHT⟩ =
      ⟨x0 + w + w, y0, x0 + w + w, y0 + h⟩ := by
    simp [nodeBounds, sideBounds, twoByTwo, hmy1, hMy1]
  have b2L : nodeBounds (twoByTwo x0 y0 w h) ⟨2, Side.LEFT⟩ = ⟨x0, y0 + h, x0, y0 + h + h⟩ := by
    simp [nodeBounds, sideBounds, twoByTwo, hmy2, hMy2]
  have b2R : nodeBounds (twoByTwo x0 y0 w h) ⟨2, Side.RIGHT⟩ =
      ⟨x0 + w, y0 + h, x0 + w, y0 + h + h⟩ := by
    simp [nodeBounds, sideBounds, twoByTwo, hmy2, hMy2]
  have b3L : nodeBounds (twoByTwo x0 y0 w h) ⟨3, Side.LEFT⟩ =
      ⟨x0 + w, y0 + h, x0 + w, y0 + h + h⟩ := by
    simp [nodeBounds, sideBounds, twoByTwo, hmy2, hMy2]
  have b3R : nodeBounds (twoByTwo x0 y0 w h) ⟨3, Side.RIGHT⟩ =
      ⟨x0 + w + w, y0 + h, x0 + w + w, y0 + h + h⟩ := by
    simp [nodeBounds, sideBounds, twoByTwo, hmy2, hMy2]
  have b0T : nodeBounds (twoByTwo x0 y0 w h) ⟨0, Side.TOP⟩ = ⟨x0, y0, x0 + w, y0⟩ := by
    simp [nodeBounds, sideBounds, twoByTwo, hmx1, hMx1]
  have b0B : nodeBounds (twoByTwo x0 y0 w h) ⟨0, Side.BOTTOM⟩ =
      ⟨x0, y0 + h, x0 + w, y0 + h⟩ := by
    simp [nodeBounds, sideBounds, twoByTwo, hmx1, hMx1]
  have b1T : nodeBounds (twoByTwo x0 y0 w h) ⟨1, Side.TOP⟩ = ⟨x0 + w, y0, x0 + w + w, y0⟩ := by
    simp [nodeBounds, sideBounds, twoByTwo, hmx2, hMx2]
  have b1B : nodeBounds (twoByTwo x0 y0 w h) ⟨1, Side.BOTTOM⟩ =
      ⟨x0 + w, y0 + h, x0 + w + w, y0 + h⟩ := by
    simp [nodeBounds, sideBounds, twoByTwo, hmx2, hMx2]
  have b2T : nodeBounds (twoByTwo x0 y0 w h) ⟨2, Side.TOP⟩ = ⟨x0, y0 + h, x0 + w, y0 + h⟩ := by
    simp [nodeBounds, sideBounds, twoByTwo, hmx1, hMx1]
  have b2B : nodeBounds (twoByTwo x0 y0 w h) ⟨2, Side.BOTTOM⟩ =
      ⟨x0, y0 + h + h, x0 + w, y0 + h + h⟩ := by
    simp [nodeBounds, sideBounds, twoByTwo, hmx1, hMx1]
  have b3T : nodeBounds (twoByTwo x0 y0 w h) ⟨3, Side.TOP⟩ =
      ⟨x0 + w, y0 + h, x0 + w + w, y0 + h⟩ := by
    simp [nodeBounds, sideBounds, twoByTwo, hmx2, hMx2]
  have b3B : nodeBounds (twoByTwo x0 y0 w h) ⟨3, Side.BOTTOM⟩ =
      ⟨x0 + w, y0 + h + h, x0 + w + w, y0 + h + h⟩ := by
    simp [nodeBounds, sideBounds, twoByTwo, hmx2, hMx2]
  have k0L : sortKey (twoByTwo x0 y0 w h) true ⟨0, Side.LEFT⟩ = (x0, y0) := by
    simp [sortKey, b0L]
  have k0R : sortKey (twoByTwo x0 y0 w h) true ⟨0, Side.RIGHT⟩ = (x0 + w, y0) := by
    simp [sortKey, b0R]
  have k1L : sortKey (twoByTwo x0 y0 w h) true ⟨1, Side.LEFT⟩ = (x0 + w, y0) := by
    simp [sortKey, b1L]
  have k1R : sortKey (twoByTwo x0 y0 w h) true ⟨1, Side.RIGHT⟩ = (x0 + w + w, y0) := by
    simp [sortKey, b1R]
  have k2L : sortKey (twoByTwo x0 y0 w h) true ⟨2, Side.LEFT⟩ = (x0, y0 + h) := by
    simp [sortKey, b2L]
  have k2R : sortKey (twoByTwo x0 y0 w h) true ⟨2, Side.RIGHT⟩ = (x0 + w, y0 + h) := by
    simp [sortKey, b2R]
  have k3L : sortKey (twoByTwo x0 y0 w h) true ⟨3, Side.LEFT⟩ = (x0 + w, y0 + h) := by
    simp [sortKey, b3L]
  have k3R : sortKey (twoByTwo x0 y0 w h) true ⟨3, Side.RIGHT⟩ = (x0 + w + w, y0 + h) := by
    simp [sortKey, b3R]
  have k0T : sortKey (twoByTwo x0 y0 w h) false ⟨0, Side.TOP⟩ = (y0, x0) := by
    simp [sortKey, b0T]
  have k0B : sortKey (twoByTwo x0 y0 w h) false ⟨0, Side.BOTTOM⟩ = (y0 + h, x0) := by
    simp [sortKey, b0B]
  have k1T : sortKey (twoByTwo x0 y0 w h) false ⟨1, Side.TOP⟩ = (y0, x0 + w) := by
    simp [sortKey, b1T]
  have k1B : sortKey (twoByTwo x0 y0 w h) false ⟨1, Side.BOTTOM⟩ = (y0 + h, x0 + w) := by
    simp [sortKey, b1B]
  have k2T : sortKey (twoByTwo x0 y0 w h) false ⟨2, Side.TOP⟩ = (y0 + h, x0) := by
    simp [sortKey, b2T]
  have k2B : sortKey (twoByTwo x0 y0 w h) false ⟨2, Side.BOTTOM⟩ = (y0 + h + h, x0) := by
    simp [sortKey, b2B]
  have k3T : sortKey (twoByTwo x0 y0 w h) false ⟨3, Side.TOP⟩ = (y0 + h, x0 + w) := by
    simp [sortKey, b3T]
  have k3B : sortKey (twoByTwo x0 y0 w h) false ⟨3, Side.BOTTOM⟩ = (y0 + h + h, x0 + w) := by
    simp [sortKey, b3B]
  have hsortV : pySort (sortKey (twoByTwo x0 y0 w h) true)
      [⟨0, Side.LEFT⟩, ⟨0, Side.RIGHT⟩, ⟨1, Side.LEFT⟩, ⟨1, Side.RIGHT⟩,
       ⟨2, Side.LEFT⟩, ⟨2, Side.RIGHT⟩, ⟨3, Side.LEFT⟩, ⟨3, Side.RIGHT⟩] =
      [⟨0, Side.LEFT⟩, ⟨2, Side.LEFT⟩, ⟨0, Side.RIGHT⟩, ⟨1, Side.LEFT⟩,
       ⟨2, Side.RIGHT⟩, ⟨3, Side.LEFT⟩, ⟨1, Side.RIGHT⟩, ⟨3, Side.RIGHT⟩] := by
    simp [pySort, insertSorted, k0L, k0R, k1L, k1R, k2L, k2R, k3L, k3R,
      keyLe_lt hab, keyLe_lt hbc, keyLe_lt hac, keyLe_gt hab, keyLe_gt hbc, keyLe_gt hac,
      keyLe_eq_le huv.le, keyLe_eq_le (le_refl y0), keyLe_eq_le (le_refl (y0 + h))]
  have hsortX : pySort (sortKey (twoByTwo x0 y0 w h) false)
      [⟨0, Side.TOP⟩, ⟨0, Side.BOTTOM⟩, ⟨1, Side.TOP⟩, ⟨1, Side.BOTTOM⟩,
       ⟨2, Side.TOP⟩, ⟨2, Side.BOTTOM⟩, ⟨3, Side.TOP⟩, ⟨3, Side.BOTTOM⟩] =
      [⟨0, Side.TOP⟩, ⟨1, Side.TOP⟩, ⟨0, Side.BOTTOM⟩, ⟨2, Side.TOP⟩,
       ⟨1, Side.BOTTOM⟩, ⟨3, Side.TOP⟩, ⟨2, Side.BOTTOM⟩, ⟨3, Side.BOTTOM⟩] := by
    simp [pySort, insertSorted, k0T, k0B, k1T, k1B, k2T, k2B, k3T, k3B,
      keyLe_lt huv, keyLe_lt hvt, keyLe_lt hut, keyLe_gt huv, keyLe_gt hvt, keyLe_gt hut,
      keyLe_eq_le hab.le, keyLe_eq_le (le_refl x0), keyLe_eq_le (le_refl (x0 + w)),
      keyLe_eq_gt hab]
  have hyN : yNodes (twoByTwo x0 y0 w h) =
      [⟨0, Side.LEFT⟩, ⟨0, Side.RIGHT⟩, ⟨1, Side.LEFT⟩, ⟨1, Side.RIGHT⟩,
       ⟨2, Side.LEFT⟩, ⟨2, Side.RIGHT⟩, ⟨3, Side.LEFT⟩, ⟨3, Side.RIGHT⟩] := rfl
  have hxN : xNodes (twoByTwo x0 y0 w h) =
      [⟨0, Side.TOP⟩, ⟨0, Side.BOTTOM⟩, ⟨1, Side.TOP⟩, ⟨1, Side.BOTTOM⟩,
       ⟨2, Side.TOP⟩, ⟨2, Side.BOTTOM⟩, ⟨3, Side.TOP⟩, ⟨3, Side.BOTTOM⟩] := rfl
  have hY : sort_and_group (twoByTwo x0 y0 w h) (yNodes (twoByTwo x0 y0 w h)) =
      [[⟨0, Side.LEFT⟩, ⟨2, Side.LEFT⟩],
       [⟨0, Side.RIGHT⟩, ⟨1, Side.LEFT⟩, ⟨2, Side.RIGHT⟩, ⟨3, Side.LEFT⟩],
       [⟨1, Side.RIGHT⟩, ⟨3, Side.RIGHT⟩]] := by
    rw [sort_and_group, hyN]
    show groupRuns (fun n => (sortKey (twoByTwo x0 y0 w h) true n).1)
      (pySort (sortKey (twoByTwo x0 y0 w h) true) _) = _
    rw [hsortV]
    simp [groupRuns, k0L, k0R, k1L, k1R, k2L, k2R, k3L, k3R, hab.ne, hbc.ne, hac.ne]
  have hX : sort_and_group (twoByTwo x0 y0 w h) (xNodes (twoByTwo x0 y0 w h)) =
      [[⟨0, Side.TOP⟩, ⟨1, Side.TOP⟩],
       [⟨0, Side.BOTTOM⟩, ⟨2, Side.TOP⟩, ⟨1, Side.BOTTOM⟩, ⟨3, Side.TOP⟩],
       [⟨2, Side.BOTTOM⟩, ⟨3, Side.BOTTOM⟩]] := by
    rw [sort_and_group, hxN]
    show groupRuns (fun n => (sortKey (twoByTwo x0 y0 w h) false n).1)
      (pySort (sortKey (twoByTwo x0 y0 w h) false) _) = _
    rw [hsortX]
    simp [groupRuns, k0T, k0B, k1T, k1B, k2T, k2B, k3T, k3B, huv.ne, hvt.ne, hut.ne]
  rw [graphEdges]
  show addEdges _ ((((sort_and_group _ (yNodes _)).drop 1).dropLast).flatten) ++
    addEdges _ ((((sort_and_group _ (xNodes _)).drop 1).dropLast).flatten) = _
  rw [hY, hX]
  show addEdges _ [⟨0, Side.RIGHT⟩, ⟨1, Side.LEFT⟩, ⟨2, Side.RIGHT⟩, ⟨3, Side.LEFT⟩] ++
    addEdges _ [⟨0, Side.BOTTOM⟩, ⟨2, Side.TOP⟩, ⟨1, Side.BOTTOM⟩, ⟨3, Side.TOP⟩] = _
  have st1 : segTouch (⟨x0 + w, y0, x0 + w, y0 + h⟩ : SegBounds)
      ⟨x0 + w, y0, x0 + w, y0 + h⟩ = true := by
    simp only [segTouch, Bool.and_eq_true, decide_eq_true_eq]
    exact ⟨⟨⟨by linarith, by linarith⟩, by linarith⟩, by linarith⟩
  have st2 : segTouch (⟨x0 + w, y0, x0 + w, y0 + h⟩ : SegBounds)
      ⟨x0 + w, y0 + h, x0 + w, y0 + h + h⟩ = true := by
    simp only [segTouch, Bool.and_eq_true, decide_eq_true_eq]
    exact ⟨⟨⟨by linarith, by linarith⟩, by linarith⟩, by linarith⟩
  have st3 : segTouch (⟨x0 + w, y0 + h, x0 + w, y0 + h + h⟩ : SegBounds)
      ⟨x0 + w, y0 + h, x0 + w, y0 + h + h⟩ = true := by
    simp only [segTouch, Bool.and_eq_true, decide_eq_true_eq]
    exact ⟨⟨⟨by linarith, by linarith⟩, by linarith⟩, by linarith⟩
  have st4 : segTouch (⟨x0, y0 + h, x0 + w, y0 + h⟩ : SegBounds)
      ⟨x0, y0 + h, x0 + w, y0 + h⟩ = true := by
    simp only [segTouch, Bool.and_eq_true, decide_eq_true_eq]
    exact ⟨⟨⟨by linarith, by linarith⟩, by linarith⟩, by linarith⟩
  have st5 : segTouch (⟨x0, y0 + h, x0 + w, y0 + h⟩ : SegBounds)
      ⟨x0 + w, y0 + h, x0 + w + w, y0 + h⟩ = true := by
    simp only [segTouch, Bool.and_eq_true, decide_eq_true_eq]
    exact ⟨⟨⟨by linarith, by linarith⟩, by linarith⟩, by linarith⟩
  have st6 : segTouch (⟨x0 + w, y0 + h, x0 + w + w, y0 + h⟩ : SegBounds)
      ⟨x0 + w, y0 + h, x0 + w + w, y0 + h⟩ = true := by
    simp only [segTouch, Bool.and_eq_true, decide_eq_true_eq]
    exact ⟨⟨⟨by linarith, by linarith⟩, by linarith⟩, by linarith⟩
  simp [addEdges, b0R, b1L, b2R, b3L, b0B, b2T, b1B, b3T, st1, st2, st3, st4, st5, st6]

/-- The connected components of the 2×2 grid's graph: the vertical
mid-line boundary and the horizontal mid-line boundary. -/
theorem components_twoByTwo (x0 y0 w h : ℚ) (hw : 0 < w) (hh : 0 < h) :
    get_connected_components (twoByTwo x0 y0 w h) =
      [[⟨0, Side.RIGHT⟩, ⟨1, Side.LEFT⟩, ⟨2, Side.RIGHT⟩, ⟨3, Side.LEFT⟩],
       [⟨0, Side.BOTTOM⟩, ⟨2, Side.TOP⟩, ⟨1, Side.BOTTOM⟩, ⟨3, Side.TOP⟩]] := by
  have hE := graphEdges_twoByTwo x0 y0 w h hw hh
  simp only [get_connected_components, nonIsolated]
  rw [hE]
  rfl

/-- C1: for every container holding 4 equal rectangles arranged as a 2×2
grid (children in row-major order), the adjacency graph yields exactly 2
boundaries: one made of the 4 LEFT/RIGHT edges on the shared vertical
mid-line (the two touching RIGHT/LEFT pairs of the two rows) and one made
of the 4 TOP/BOTTOM edges on the shared horizontal mid-line; none of the
8 outer perimeter edges belongs to any boundary. -/
theorem C1_two_by_two_boundaries (x0 y0 w h : ℚ) (hw : 0 < w) (hh : 0 < h) :
    (get_connected_components (twoByTwo x0 y0 w h)).length = 2 ∧
    (∃ c ∈ get_connected_components (twoByTwo x0 y0 w h),
      c.Perm [⟨0, Side.RIGHT⟩, ⟨1, Side.LEFT⟩, ⟨2, Side.RIGHT⟩, ⟨3, Side.LEFT⟩]) ∧
    (∃ c ∈ get_connected_components (twoByTwo x0 y0 w h),
      c.Perm [⟨0, Side.BOTTOM⟩, ⟨2, Side.TOP⟩, ⟨1, Side.BOTTOM⟩, ⟨3, Side.TOP⟩]) ∧
    (∀ c ∈ get_connected_components (twoByTwo x0 y0 w h),
      ∀ n ∈ ([⟨0, Side.LEFT⟩, ⟨2, Side.LEFT⟩, ⟨1, Side.RIGHT⟩, ⟨3, Side.RIGHT⟩,
              ⟨0, Side.TOP⟩, ⟨1, Side.TOP⟩, ⟨2, Side.BOTTOM⟩, ⟨3, Side.BOTTOM⟩] : List GNode),
        n ∉ c) := by
  rw [components_twoByTwo x0 y0 w h hw hh]
  decide

/-- C1 witness: the 2×2 theorem instantiated on the unit-square grid at
the origin with 1×1 quadrants. -/
theorem C1_two_by_two_boundaries_witness :
    (get_connected_components (twoByTwo 0 0 1 1)).length = 2 ∧
    (∃ c ∈ get_connected_components (twoByTwo 0 0 1 1),
      c.Perm [⟨0, Side.RIGHT⟩, ⟨1, Side.LEFT⟩, ⟨2, Side.RIGHT⟩, ⟨3, Side.LEFT⟩]) ∧
    (∃ c ∈ get_connected_components (twoByTwo 0 0 1 1),
      c.Perm [⟨0, Side.BOTTOM⟩, ⟨2, Side.TOP⟩, ⟨1, Side.BOTTOM⟩, ⟨3, Side.TOP⟩]) ∧
    (∀ c ∈ get_connected_components (twoByTwo 0 0 1 1),
      ∀ n ∈ ([⟨0, Side.LEFT⟩, ⟨2, Side.LEFT⟩, ⟨1, Side.RIGHT⟩, ⟨3, Side.RIGHT⟩,
              ⟨0, Side.TOP⟩, ⟨1, Side.TOP⟩, ⟨2, Side.BOTTOM⟩, ⟨3, Side.BOTTOM⟩] : List GNode),
        n ∉ c) :=
  C1_two_by_two_boundaries 0 0 1 1 (by norm_num) (by norm_num)

end LinuxZones
